import Mathlib

/-!
Verification of the flexible E2E runner in `src/test-runner.ts` (the
"Flexible E2E runner for Fresh + Deno" script).

Strings from the runner are modelled as `List Char`.  Commands are lists of
tokens.  The process-level behaviour of `main`/`cleanup` is modelled as a
trace of events over an oracle (`World`) that decides the outcomes of the
external operations (spawn success, build result, server readiness, test
result, whether the server exits within the 5000ms grace period, and
whether an operator signal arrives).
-/

namespace TestRunner

/-- Whitespace characters matched by the JavaScript regexp class `\s`
(ASCII part: space, tab, line feed, carriage return, vertical tab, form
feed; the Unicode space separators are not used by any configuration
string and are omitted). -/
def isWs (c : Char) : Bool :=
  c = ' ' || c = '\t' || c = '\n' || c = '\r' || c = '\x0b' || c = '\x0c'

/-- Whether a string starts with a whitespace character. -/
def startsWithWs : List Char → Bool
  | [] => false
  | c :: _ => isWs c

/-- JavaScript `raw.split(/\s+/)` on a list of characters: the string is cut
at every maximal run of whitespace.  A leading run contributes an empty
first element, a trailing run an empty last element, and the empty string
yields `[[]]` (JavaScript: `"".split(/\s+/) === [""]`). -/
def jsSplitWs : List Char → List (List Char)
  | [] => [[]]
  | c :: cs =>
    let r := jsSplitWs cs
    if isWs c then
      if startsWithWs cs then r else [] :: r
    else
      (c :: r.headD []) :: r.tail

/-- `parseCmd` from the runner: `raw.split(/\s+/).filter(Boolean)` —
split on runs of whitespace, then drop empty strings (`Boolean(s)` is
`false` exactly for the empty string). -/
def parseCmd (raw : List Char) : List (List Char) :=
  (jsSplitWs raw).filter (fun t => !t.isEmpty)

/-- JavaScript `String.prototype.trim`: remove leading and trailing
whitespace. -/
def jsTrim (l : List Char) : List Char :=
  ((l.dropWhile isWs).reverse.dropWhile isWs).reverse

/-- Modelled from the spec: "split each raw string on runs of whitespace"
with "empty tokens discarded" — the tokens are exactly the maximal runs of
non-whitespace characters, in order.  This is the specification-side
tokenizer that `parseCmd` is compared against. -/
def wordsBy (l : List Char) : List (List Char) :=
  if h : (l.dropWhile isWs).isEmpty then []
  else
    ((l.dropWhile isWs).takeWhile (fun c => !isWs c)) ::
      wordsBy ((l.dropWhile isWs).dropWhile (fun c => !isWs c))
termination_by l.length
decreasing_by
  simp only [List.isEmpty_iff] at h
  have hlen : ∀ (p : Char → Bool) (m : List Char), (m.dropWhile p).length ≤ m.length := by
    intro p m
    induction m with
    | nil => simp
    | cons a as ih =>
      rw [List.dropWhile_cons]
      split
      · exact le_trans ih (by simp)
      · simp
  have hws : ∀ m : List Char, startsWithWs (m.dropWhile isWs) = false := by
    intro m
    induction m with
    | nil => rfl
    | cons a as ih =>
      by_cases ha : isWs a
      · simpa [List.dropWhile_cons, ha] using ih
      · simp [List.dropWhile_cons, ha, startsWithWs]
  rcases hd : l.dropWhile isWs with _ | ⟨c, cs⟩
  · exact absurd hd h
  · have hc : isWs c = false := by
      have := hws l
      rw [hd] at this
      simpa [startsWithWs] using this
    have h1 : (l.dropWhile isWs).length ≤ l.length := hlen isWs l
    rw [hd] at h1
    have h2 : ((c :: cs).dropWhile (fun c => !isWs c)).length ≤ cs.length := by
      rw [List.dropWhile_cons]
      simp only [hc, Bool.not_false, if_true]
      exact hlen _ cs
    simp only [List.length_cons] at h1 ⊢
    omega

/-! ## Configuration resolution (`env`, `*_RAW`, `directMode`, resolved commands) -/

/-- The runner's configuration surface: the four command environment
variables (`none` = unset, `some s` = set to the string `s`).  The
port/timeout/health-path variables are numeric inputs threaded to
`waitForServer` and are passed to the model as plain parameters. -/
structure Config where
  buildCmdEnv : Option (List Char)
  serveCmdEnv : Option (List Char)
  taskCmdEnv : Option (List Char)
  testCmdEnv : Option (List Char)

/-- `const env = (k, d = "") => Deno.env.get(k) ?? d` -/
def env (v : Option (List Char)) (d : List Char) : List Char := v.getD d

/-- `const BUILD_CMD_RAW = env("BUILD_CMD", "deno run -A dev.ts build").trim()` -/
def BUILD_CMD_RAW (c : Config) : List Char :=
  jsTrim (env c.buildCmdEnv "deno run -A dev.ts build".data)

/-- `const SERVE_CMD_RAW = env("SERVE_CMD", "deno serve -A _fresh/server.js").trim()` -/
def SERVE_CMD_RAW (c : Config) : List Char :=
  jsTrim (env c.serveCmdEnv "deno serve -A _fresh/server.js".data)

/-- `const TASK_CMD_RAW = env("TASK_CMD", "")` (note: default `""`, no trim) -/
def TASK_CMD_RAW (c : Config) : List Char :=
  env c.taskCmdEnv "".data

/-- `const TEST_CMD_RAW = env("TEST_CMD", "deno task test:e2e")` -/
def TEST_CMD_RAW (c : Config) : List Char :=
  env c.testCmdEnv "deno task test:e2e".data

/-- `const directMode = Boolean(BUILD_CMD_RAW || SERVE_CMD_RAW)` — a
JavaScript string is truthy exactly when it is non-empty. -/
def directMode (c : Config) : Bool :=
  !(BUILD_CMD_RAW c).isEmpty || !(SERVE_CMD_RAW c).isEmpty

/-- `const BUILD_CMD = BUILD_CMD_RAW ? parseCmd(BUILD_CMD_RAW) : undefined` -/
def BUILD_CMD (c : Config) : Option (List (List Char)) :=
  if (BUILD_CMD_RAW c).isEmpty then none else some (parseCmd (BUILD_CMD_RAW c))

/-- `const SERVE_CMD = SERVE_CMD_RAW ? parseCmd(SERVE_CMD_RAW) : undefined` -/
def SERVE_CMD (c : Config) : Option (List (List Char)) :=
  if (SERVE_CMD_RAW c).isEmpty then none else some (parseCmd (SERVE_CMD_RAW c))

/-- `const TASK_CMD = parseCmd(TASK_CMD_RAW)` -/
def TASK_CMD (c : Config) : List (List Char) :=
  parseCmd (TASK_CMD_RAW c)

/-- `const TEST_CMD = parseCmd(TEST_CMD_RAW)` -/
def TEST_CMD (c : Config) : List (List Char) :=
  parseCmd (TEST_CMD_RAW c)

/-- The configuration in which every environment variable is unset. -/
def cfgAllUnset : Config := ⟨none, none, none, none⟩

/-- The configuration that actually selects task mode: `BUILD_CMD` and
`SERVE_CMD` explicitly set to the empty string, `TASK_CMD` unset, and an
arbitrary `TEST_CMD` setting. -/
def cfgTaskMode (te : Option (List Char)) : Config := ⟨some [], some [], none, te⟩

/-! ## Process-level model of `main` and `cleanup`

The supervisor's observable actions are modelled as a trace of events; the
outcomes of the external operations are supplied by a `World` oracle, so a
theorem quantified over `World` covers every execution path of the
script. -/

/-- Process signals used by the runner. -/
inductive Sig
  | sigterm
  | sigkill
deriving DecidableEq, Repr

/-- Observable actions of the supervisor process. -/
inductive Event
  /-- A build child process is spawned (`runCommandAndWait(BUILD_CMD)`). -/
  | spawnBuild (cmd : List (List Char))
  /-- The server child process is spawned and its handle stored in
  `serverChild` (direct mode: `SERVE_CMD`; task mode: `TASK_CMD`). -/
  | spawnServer (cmd : List (List Char))
  /-- The test child process is spawned (`spawnChild(TEST_CMD)`). -/
  | spawnTests (cmd : List (List Char))
  /-- `Deno.addSignalListener("SIGINT"/"SIGTERM", sigHandler)`. -/
  | installHandlers
  /-- `serverChild.kill(sig)` — the call on the child handle (its
  already-exited exception, if any, is swallowed by the source). -/
  | killServerHandle (s : Sig)
  /-- `Deno.kill(serverChild.pid, sig)` — the kill-by-process-id call. -/
  | killByPid (s : Sig)
  /-- An explicit pause of `ms` milliseconds. -/
  | sleepMs (ms : Nat)
  /-- `Deno.exit(code)`. -/
  | exitP (code : Nat)
deriving DecidableEq, Repr

/-- Oracle for the outcomes of the external operations along a run. -/
structure World where
  /-- Whether spawning a (non-empty) command succeeds; spawning the empty
  command always fails (`cmd[0]` is `undefined`). -/
  spawnOk : List (List Char) → Bool
  /-- Exit status of the build command (`res.success`). -/
  buildSucceeds : Bool
  /-- Whether `waitForServer` succeeds within the timeout. -/
  serverReady : Bool
  /-- Exit status of the test command (`testStatus.success`). -/
  testsPass : Bool
  /-- Whether the server's own exit wins the race against the 5000ms grace
  timer in `cleanup` (i.e. the server exited within the grace period, so
  the subsequent `Deno.kill` call raises and its 200ms pause is skipped). -/
  serverExitsInGrace : Bool
  /-- An operator signal (SIGINT/SIGTERM) arrives while waiting for
  readiness, invoking the installed handler. -/
  sigDuringWait : Bool
  /-- An operator signal arrives while the tests run. -/
  sigDuringTests : Bool

/-- Whether `spawnChild(cmd)` throws: the empty command has no program
name (`cmd[0]` is `undefined`), and a non-empty command can still fail to
spawn (executable not found, permission denied) as decided by the world. -/
def spawnFails (w : World) (cmd : List (List Char)) : Bool :=
  cmd.isEmpty || !(w.spawnOk cmd)

/-- The supervisor's module-level mutable state: the `cleaned` flag and
whether `serverChild` is non-null. -/
structure RState where
  cleaned : Bool
  serverChild : Bool
deriving DecidableEq, Repr

/-- `cleanup(exitCode)`: returns the state after the call together with the
trace of its observable actions.  Transcribed from the source: if already
cleaned, just `Deno.exit(exitCode)`; otherwise set the flag, and if a
server handle exists send SIGTERM via the handle, race the server's exit
against the 5000ms grace timer, then **unconditionally** call
`Deno.kill(serverChild.pid, "SIGKILL")` (the `if (serverChild.pid)` guard
only checks that the pid is a non-zero number, which holds for every
spawned child); if the server was still alive the kill lands and a 200ms
pause follows, and if it had already exited the call raises and is
swallowed, skipping the pause; finally await the status and exit. -/
def cleanup (w : World) (st : RState) (code : Nat) : RState × List Event :=
  if st.cleaned then
    (st, [Event.exitP code])
  else
    let st' : RState := ⟨true, st.serverChild⟩
    if st'.serverChild then
      (st', Event.killServerHandle Sig.sigterm ::
            Event.killByPid Sig.sigkill ::
            (if w.serverExitsInGrace then [] else [Event.sleepMs 200]) ++
            [Event.exitP code])
    else
      (st', [Event.exitP code])

/-- The tail of `main` after the server child has been spawned and stored:
install the signal handlers, wait for readiness (a readiness timeout is
caught and routed to `cleanup(1)`), run the tests and route their status
to `cleanup(0)` or `cleanup(1)`; a spawn failure of the test command is
caught by the outer `catch` and also routed to `cleanup(1)`.  An operator
signal during the waiting or testing phase invokes the same `cleanup(1)`
through the installed handler. -/
def afterSpawn (w : World) (c : Config) : List Event :=
  Event.installHandlers ::
    (if w.sigDuringWait then (cleanup w ⟨false, true⟩ 1).2
     else if !w.serverReady then (cleanup w ⟨false, true⟩ 1).2
     else if w.sigDuringTests then (cleanup w ⟨false, true⟩ 1).2
     else if spawnFails w (TEST_CMD c) then (cleanup w ⟨false, true⟩ 1).2
     else Event.spawnTests (TEST_CMD c) ::
       (if w.testsPass then (cleanup w ⟨false, true⟩ 0).2
        else (cleanup w ⟨false, true⟩ 1).2))

/-- The direct-mode continuation after the (optional) build step: if
`SERVE_CMD` is `undefined` report the configuration error and
`cleanup(1)`; otherwise spawn the server (a spawn failure is caught by the
outer `catch` before `serverChild` is assigned). -/
def afterBuild (w : World) (c : Config) : List Event :=
  match SERVE_CMD c with
  | none => (cleanup w ⟨false, false⟩ 1).2
  | some s =>
    if spawnFails w s then (cleanup w ⟨false, false⟩ 1).2
    else Event.spawnServer s :: afterSpawn w c

/-- The trace of one run of `main()`: in direct mode run the build command
if present (its spawn failure or non-zero exit aborts via `cleanup(1)`),
then the serve command; in task mode spawn `TASK_CMD` as the server.  All
thrown errors funnel into `cleanup(1)`, and every `cleanup` call ends the
process, so each trace ends with exactly one `exitP`. -/
def mainTrace (w : World) (c : Config) : List Event :=
  if directMode c then
    match BUILD_CMD c with
    | some b =>
      if spawnFails w b then (cleanup w ⟨false, false⟩ 1).2
      else
        Event.spawnBuild b ::
          (if w.buildSucceeds then afterBuild w c
           else (cleanup w ⟨false, false⟩ 1).2)
    | none => afterBuild w c
  else
    if spawnFails w (TASK_CMD c) then (cleanup w ⟨false, false⟩ 1).2
    else Event.spawnServer (TASK_CMD c) :: afterSpawn w c

/-! ## The readiness prober `waitForServer`

Durations are modelled as rational milliseconds.  `1.25` is exactly
representable in binary floating point and its relevant powers are exact
(`1.25 ^ n` needs `2n` mantissa bits and the cap takes over from `n = 11`),
so `ℚ` is a faithful model of the script's backoff arithmetic.  The
round-trip time of each probe is abstracted to zero; only the sleeps
advance the clock. -/

/-- Outcome of `waitForServer`: normal return, or the thrown
`Server not ready after ...ms` error. -/
inductive WfsResult
  | ready
  | timeout
deriving DecidableEq, Repr

/-- Observable actions of the probing loop. -/
inductive WEvent
  /-- `await new Promise((r) => setTimeout(r, wait))`, `d` milliseconds. -/
  | sleep (d : ℚ)
  /-- The `⏳ waiting for server (attempt n)...` progress line. -/
  | progress (n : Nat)
deriving DecidableEq, Repr

/-- `const wait = Math.min(200 * Math.pow(1.25, attempt), 2000)` -/
def waitDelay (attempt : Nat) : ℚ :=
  min (200 * (5 / 4 : ℚ) ^ attempt) 2000

/-- The `while (Date.now() - start < timeoutMs)` loop of `waitForServer`,
from an arbitrary loop state: `ready n` tells whether the probe issued on
the n-th loop iteration succeeds, `attempt` is the current counter value
and `elapsed` the time spent so far.  Each failed probe sleeps
`waitDelay attempt`, increments the counter, and logs a progress line when
the incremented counter is a multiple of 5.  Termination: every sleep is
at least 200ms, so the remaining time, divided by nothing and rounded up,
strictly decreases. -/
def wfsGo (ready : Nat → Bool) (timeoutMs : ℚ) (attempt : Nat) (elapsed : ℚ) :
    WfsResult × List WEvent :=
  if h : elapsed < timeoutMs then
    if ready attempt then
      (WfsResult.ready, [])
    else
      let d := waitDelay attempt
      let next := wfsGo ready timeoutMs (attempt + 1) (elapsed + d)
      (next.1,
       WEvent.sleep d ::
         (if (attempt + 1) % 5 = 0 then [WEvent.progress (attempt + 1)] else []) ++ next.2)
  else
    (WfsResult.timeout, [])
termination_by (Int.ceil (timeoutMs - elapsed)).toNat
decreasing_by
  have hd : (200 : ℚ) ≤ waitDelay attempt := by
    refine le_min ?_ (by norm_num)
    have h1 : (1 : ℚ) ≤ (5 / 4 : ℚ) ^ attempt := by
      apply one_le_pow₀
      norm_num
    nlinarith
  have h1 : (1 : ℤ) ≤ Int.ceil (timeoutMs - elapsed) := by
    have h0 : (0 : ℚ) < timeoutMs - elapsed := by linarith
    exact Int.ceil_pos.mpr h0
  have h2 : Int.ceil (timeoutMs - (elapsed + waitDelay attempt)) ≤
      Int.ceil (timeoutMs - elapsed) - 200 := by
    have hle : timeoutMs - (elapsed + waitDelay attempt) ≤
        (timeoutMs - elapsed) - ((200 : ℤ) : ℚ) := by
      push_cast
      linarith
    calc Int.ceil (timeoutMs - (elapsed + waitDelay attempt))
        ≤ Int.ceil ((timeoutMs - elapsed) - ((200 : ℤ) : ℚ)) := Int.ceil_le_ceil hle
      _ = Int.ceil (timeoutMs - elapsed) - 200 := by rw [Int.ceil_sub_int]
  omega

/-- The full run of `waitForServer(port, timeoutMs, path)` with a given
probe oracle: counter starts at 0, no time elapsed yet. -/
def waitForServer (ready : Nat → Bool) (timeoutMs : ℚ) : WfsResult × List WEvent :=
  wfsGo ready timeoutMs 0 0

/-- The sleep durations of a probe trace, in order. -/
def sleepsOf (tr : List WEvent) : List ℚ :=
  tr.filterMap fun e =>
    match e with
    | WEvent.sleep d => some d
    | _ => none

/-- The attempt counts at which a progress line was logged, in order. -/
def progressOf (tr : List WEvent) : List Nat :=
  tr.filterMap fun e =>
    match e with
    | WEvent.progress n => some n
    | _ => none

/-! ## Concrete inputs used by counterexamples and witnesses -/

/-- A world in which everything external succeeds and the server exits
within the cleanup grace period. -/
def wAll : World := ⟨fun _ => true, true, true, true, true, false, false⟩

/-- Like `wAll` but the server never becomes ready. -/
def wNoReady : World := ⟨fun _ => true, true, false, true, true, false, false⟩

/-- `BUILD_CMD` unset (so its non-empty default applies) and `SERVE_CMD`
explicitly set to the empty string: direct mode with no serve command. -/
def cfgNoServe : Config := ⟨none, some [], none, none⟩

/-! ## Helper lemmas -/

/-- Dropping a prefix cannot lengthen a list. -/
theorem length_dropWhile_le (p : Char → Bool) (l : List Char) :
    (l.dropWhile p).length ≤ l.length := by
  induction l with
  | nil => simp
  | cons c cs ih =>
    rw [List.dropWhile_cons]
    split
    · exact le_trans ih (by simp)
    · simp

/-- The first character surviving `dropWhile isWs` is not whitespace. -/
theorem startsWithWs_dropWhile_isWs (l : List Char) :
    startsWithWs (l.dropWhile isWs) = false := by
  induction l with
  | nil => rfl
  | cons c cs ih =>
    by_cases h : isWs c
    · simpa [List.dropWhile_cons, h] using ih
    · simp [List.dropWhile_cons, h, startsWithWs]

/-- A string that does not start with whitespace is unchanged by stripping
leading whitespace. -/
theorem dropWhile_isWs_of_not_startsWithWs {l : List Char}
    (h : startsWithWs l = false) : l.dropWhile isWs = l := by
  cases l with
  | nil => rfl
  | cons c cs =>
    simp only [startsWithWs] at h
    simp [List.dropWhile_cons, h]

/-- The split of a whitespace-headed string is an empty first element
followed by the split of the string with its whole leading whitespace run
removed. -/
theorem jsSplitWs_ws_head {l : List Char} (h : startsWithWs l = true) :
    jsSplitWs l = [] :: jsSplitWs (l.dropWhile isWs) := by
  induction l with
  | nil => simp [startsWithWs] at h
  | cons c cs ih =>
    simp only [startsWithWs] at h
    rw [jsSplitWs]
    simp only [h, if_true, List.dropWhile_cons]
    cases hcs : startsWithWs cs with
    | true =>
      rw [ih hcs]
      simp
    | false =>
      rw [dropWhile_isWs_of_not_startsWithWs hcs]
      simp

/-- The first element of a split is the maximal non-whitespace run at the
head of the string (empty when the string is empty or starts with
whitespace). -/
theorem jsSplitWs_headD (l : List Char) :
    (jsSplitWs l).headD [] = l.takeWhile (fun c => !isWs c) := by
  induction l with
  | nil => rfl
  | cons c cs ih =>
    rw [jsSplitWs]
    by_cases h : isWs c
    · simp only [h, if_true, List.takeWhile_cons, Bool.not_true]
      cases hcs : startsWithWs cs with
      | true =>
        simp only [if_true]
        rw [ih] at *
        cases cs with
        | nil => simp [startsWithWs] at hcs
        | cons d ds =>
          simp only [startsWithWs] at hcs
          simp [List.takeWhile_cons, hcs]
      | false => simp
    · have h' : isWs c = false := by simpa using h
      simp only [h', Bool.false_eq_true, if_false, List.takeWhile_cons, Bool.not_false,
        if_true, List.headD]
      rw [← ih]
      rcases jsSplitWs cs with _ | ⟨t, ts⟩ <;> rfl

/-- Dropping the leading whitespace of a string does not change its parsed
command: the split only loses its empty first element, which the filter
discards anyway. -/
theorem parseCmd_dropWhile_isWs (l : List Char) :
    parseCmd (l.dropWhile isWs) = parseCmd l := by
  cases h : startsWithWs l with
  | false => rw [dropWhile_isWs_of_not_startsWithWs h]
  | true =>
    unfold parseCmd
    rw [jsSplitWs_ws_head h]
    simp

/-- The filtered tail of a split is the parsed command of the string with
its head token (and the whitespace run after it) removed. -/
theorem filter_tail_jsSplitWs (l : List Char) :
    ((jsSplitWs l).tail).filter (fun t => !t.isEmpty) =
      parseCmd (l.dropWhile (fun c => !isWs c)) := by
  induction l with
  | nil => rfl
  | cons c cs ih =>
    rw [jsSplitWs]
    by_cases h : isWs c
    · have hsw : startsWithWs (c :: cs) = true := by simpa [startsWithWs] using h
      have := jsSplitWs_ws_head hsw
      rw [jsSplitWs] at this
      simp only [h, if_true] at this ⊢
      rw [this]
      simp only [List.tail_cons]
      have hdrop : (c :: cs).dropWhile (fun x => !isWs x) = c :: cs := by
        simp [List.dropWhile_cons, h]
      rw [hdrop]
      have : parseCmd ((c :: cs).dropWhile isWs) = parseCmd (c :: cs) :=
        parseCmd_dropWhile_isWs (c :: cs)
      rw [← this]
      rfl
    · have h' : isWs c = false := by simpa using h
      simp only [h', Bool.false_eq_true, if_false, List.tail_cons]
      rw [ih]
      simp [List.dropWhile_cons, h']

/-- Parsing a string whose head is not whitespace yields the head's
maximal non-whitespace run as first token, followed by the parse of the
rest. -/
theorem parseCmd_cons_not_ws {c : Char} (cs : List Char) (hc : isWs c = false) :
    parseCmd (c :: cs) =
      (c :: cs.takeWhile (fun x => !isWs x)) ::
        parseCmd (cs.dropWhile (fun x => !isWs x)) := by
  unfold parseCmd
  rw [jsSplitWs]
  simp only [hc, Bool.false_eq_true, if_false]
  rw [List.filter_cons]
  simp only [List.isEmpty_cons, Bool.not_false, if_true]
  rw [jsSplitWs_headD cs, filter_tail_jsSplitWs cs]
  rfl

/-! ## C9: tokenization -/

/-- C9: for every raw configuration string, `parseCmd` yields exactly the
maximal runs of non-whitespace characters in order (splitting on runs of
whitespace with empty tokens discarded); a whitespace-only string resolves
to the empty command, and quote characters are ordinary token characters
(no quoting is interpreted). -/
theorem parseCmd_splits_on_whitespace_runs :
    (∀ l : List Char, parseCmd l = wordsBy l) ∧
    (∀ l : List Char, l.all isWs → parseCmd l = []) ∧
    parseCmd "deno \x22a b\x22".data = ["deno".data, "\x22a".data, "b\x22".data] := by
  have main : ∀ l : List Char, parseCmd l = wordsBy l := by
    intro l
    induction l using wordsBy.induct with
    | case1 l hnil =>
      rw [wordsBy]
      simp only [hnil, dite_true]
      rw [← parseCmd_dropWhile_isWs l]
      simp only [List.isEmpty_iff] at hnil
      rw [hnil]
      rfl
    | case2 l hnil ih =>
      rcases hne : l.dropWhile isWs with _ | ⟨c, cs⟩
      · rw [hne] at hnil
        simp at hnil
      · have hc : isWs c = false := by
          have := startsWithWs_dropWhile_isWs l
          rw [hne] at this
          simpa [startsWithWs] using this
        rw [wordsBy, ← parseCmd_dropWhile_isWs l]
        rw [hne] at ih ⊢
        simp only [List.isEmpty_cons, Bool.false_eq_true, dite_false]
        rw [parseCmd_cons_not_ws cs hc]
        simp only [List.dropWhile_cons, List.takeWhile_cons, hc, Bool.not_false,
          if_true] at ih ⊢
        rw [ih]
  exact ⟨main, fun l hws => by
    rw [main l, wordsBy]
    have : l.dropWhile isWs = [] := by
      induction l with
      | nil => rfl
      | cons c cs ih =>
        simp only [List.all_cons, Bool.and_eq_true] at hws
        simp [List.dropWhile_cons, hws.1, ih hws.2]
    simp [this], by decide⟩

/-- Witness for `parseCmd_splits_on_whitespace_runs`: a whitespace-only
string resolves to the empty command. -/
theorem parseCmd_splits_on_whitespace_runs_witness :
    (("   ".data.all isWs) = true) ∧ parseCmd "   ".data = [] :=
  ⟨by decide, parseCmd_splits_on_whitespace_runs.2.1 "   ".data (by decide)⟩

/-! ## C1: mode selection -/

/-- C1: the claim says that with both `BUILD_CMD` and `SERVE_CMD` unset
the runner operates in task mode; the code disagrees.  With both
environment variables unset, the non-empty defaults
`"deno run -A dev.ts build"` and `"deno serve -A _fresh/server.js"` are
substituted before the truthiness test, so `directMode` is `true` and the
runner operates in direct mode. -/
theorem directMode_true_when_overrides_unset :
    cfgAllUnset.buildCmdEnv = none ∧ cfgAllUnset.serveCmdEnv = none ∧
      directMode cfgAllUnset = true :=
  ⟨rfl, rfl, rfl⟩

/-! ## C3: the task-mode default command -/

/-- C3: the claim (and the script's own header comment) says `TASK_CMD`
defaults to `deno task serve`; the code's default is the empty string, so
in task mode with `TASK_CMD` unset the composite command resolves to the
empty token list, not to `["deno", "task", "serve"]`. -/
theorem taskCmd_default_is_empty_not_deno_task_serve :
    (cfgTaskMode none).taskCmdEnv = none ∧
    TASK_CMD (cfgTaskMode none) = [] ∧
    parseCmd "deno task serve".data = ["deno".data, "task".data, "serve".data] ∧
    TASK_CMD (cfgTaskMode none) ≠ parseCmd "deno task serve".data :=
  ⟨rfl, rfl, by decide, by decide⟩

/-! ## Shape lemmas for `cleanup` traces -/

/-- A first `cleanup` call with no server handle just exits. -/
theorem cleanup_fst_noServer (w : World) (code : Nat) :
    (cleanup w ⟨false, false⟩ code).2 = [Event.exitP code] := rfl

/-- A first `cleanup` call with a live server handle: SIGTERM on the
handle, the unconditional SIGKILL by pid, the 200ms pause when the kill
landed, then exit. -/
theorem cleanup_fst_server (w : World) (code : Nat) :
    (cleanup w ⟨false, true⟩ code).2 =
      Event.killServerHandle Sig.sigterm :: Event.killByPid Sig.sigkill ::
        (if w.serverExitsInGrace then [] else [Event.sleepMs 200]) ++
        [Event.exitP code] := rfl

/-- Every `cleanup` trace ends with `Deno.exit` of the requested code. -/
theorem cleanup_ends_exit (w : World) (st : RState) (code : Nat) :
    ∃ l, (cleanup w st code).2 = l ++ [Event.exitP code] := by
  unfold cleanup
  rcases st with ⟨cl, sv⟩
  cases cl
  · cases sv
    · exact ⟨[], rfl⟩
    · refine ⟨Event.killServerHandle Sig.sigterm :: Event.killByPid Sig.sigkill ::
        (if w.serverExitsInGrace then [] else [Event.sleepMs 200]), ?_⟩
      simp
  · exact ⟨[], rfl⟩

/-! ## C5: the cleanup flag -/

/-- C5: the `cleaned` flag becomes `true` on the first `cleanup` call and
is never reset; any call on an already-cleaned state performs no teardown
actions (no signals, no waiting) and only exits with its exit code, so the
termination sequence runs at most once however often `cleanup` is
invoked — in particular any second call produces just `Deno.exit`. -/
theorem cleanup_idempotent (w : World) (st : RState) (code code' : Nat) :
    (cleanup w st code).1.cleaned = true ∧
    (st.cleaned = true → cleanup w st code = (st, [Event.exitP code])) ∧
    (cleanup w (cleanup w st code).1 code').2 = [Event.exitP code'] := by
  unfold cleanup
  rcases st with ⟨cl, sv⟩
  cases cl <;> cases sv <;> simp

/-- Witness for `cleanup_idempotent`: a second `cleanup` call only exits. -/
theorem cleanup_idempotent_witness :
    cleanup wAll ⟨true, true⟩ 7 = (⟨true, true⟩, [Event.exitP 7]) :=
  (cleanup_idempotent wAll ⟨true, true⟩ 7 0).2.1 rfl

/-! ## C6: the forceful kill -/

/-- C6: the claim says the SIGKILL by pid is issued only when the 5000ms
grace period elapses before the server exits.  The code disagrees: after
the grace race it calls `Deno.kill(serverChild.pid, "SIGKILL")`
unconditionally (the guard `if (serverChild.pid)` only tests that the pid
is a non-zero number, which holds for every spawned child).  Here the
server exits within the grace period and the SIGKILL call is still
issued; only the 200ms pause is skipped (the kill raises and the
exception is swallowed). -/
theorem sigkill_issued_even_when_server_exits_in_grace :
    wAll.serverExitsInGrace = true ∧
    (cleanup wAll ⟨false, true⟩ 0).2 =
      [Event.killServerHandle Sig.sigterm, Event.killByPid Sig.sigkill,
        Event.exitP 0] :=
  ⟨rfl, rfl⟩

/-! ## C10: task mode with an empty task command -/

/-- C10: with `BUILD_CMD` and `SERVE_CMD` explicitly empty (task mode) and
`TASK_CMD` unset, the task command resolves to the empty token list,
spawning it fails (`cmd[0]` is `undefined`), the failure is caught by the
outer `catch`, and the run terminates via `cleanup` with exit code 1
without any server having been started — for every world and every
`TEST_CMD` setting the whole trace is just `Deno.exit(1)`. -/
theorem empty_task_cmd_exits_one_without_server (w : World)
    (te : Option (List Char)) :
    directMode (cfgTaskMode te) = false ∧
    TASK_CMD (cfgTaskMode te) = [] ∧
    mainTrace w (cfgTaskMode te) = [Event.exitP 1] :=
  ⟨rfl, rfl, rfl⟩

/-! ## C4: direct mode without a serve command -/

/-- C4 counterexample: the claim says that in direct mode with an empty
serve command no child process is started.  With `BUILD_CMD` unset (its
non-empty default applies) and `SERVE_CMD` set to the empty string, the
runner is in direct mode with no serve command, yet it spawns the build
child process before detecting the missing serve command. -/
theorem build_spawned_despite_missing_serve_cmd :
    directMode cfgNoServe = true ∧ SERVE_CMD cfgNoServe = none ∧
    mainTrace wAll cfgNoServe =
      [Event.spawnBuild (parseCmd "deno run -A dev.ts build".data),
        Event.exitP 1] :=
  ⟨rfl, rfl, rfl⟩

/-- C4 (amended): if direct mode is selected but the serve command
resolves to empty, the run terminates with exit code 1 and no **server**
process is spawned; a configured build command may still have run first. -/
theorem no_serve_cmd_exits_one_no_server (w : World) (c : Config)
    (h1 : directMode c = true) (h2 : SERVE_CMD c = none) :
    (∃ l, mainTrace w c = l ++ [Event.exitP 1]) ∧
    ∀ cmd, Event.spawnServer cmd ∉ mainTrace w c := by
  unfold mainTrace afterBuild
  rw [h1, h2]
  simp only [if_true]
  rcases BUILD_CMD c with _ | b
  · rw [cleanup_fst_noServer]
    exact ⟨⟨[], rfl⟩, by simp⟩
  · by_cases hs : spawnFails w b = true
    · simp only [hs, if_true]
      rw [cleanup_fst_noServer]
      exact ⟨⟨[], rfl⟩, by simp⟩
    · simp only [hs, Bool.false_eq_true, if_false]
      cases hb : w.buildSucceeds <;>
        simp only [if_true, Bool.false_eq_true, if_false] <;>
        rw [cleanup_fst_noServer] <;>
        exact ⟨⟨[Event.spawnBuild b], rfl⟩, by simp⟩

/-- Witness for `no_serve_cmd_exits_one_no_server` at the concrete
configuration of the counterexample. -/
theorem no_serve_cmd_exits_one_no_server_witness :
    (∃ l, mainTrace wAll cfgNoServe = l ++ [Event.exitP 1]) ∧
    ∀ cmd, Event.spawnServer cmd ∉ mainTrace wAll cfgNoServe :=
  no_serve_cmd_exits_one_no_server wAll cfgNoServe rfl rfl

/-! ## Trace-shape lemmas for `main` -/

/-- Every branch of `afterSpawn` sends SIGTERM to the server handle and
ends with `Deno.exit`. -/
theorem afterSpawn_decomp (w : World) (c : Config) :
    ∃ l1 l2 code, afterSpawn w c =
      l1 ++ Event.killServerHandle Sig.sigterm :: l2 ++ [Event.exitP code] := by
  unfold afterSpawn
  split_ifs with h1 h2 h3 h4 h5 <;>
    [skip; skip; skip; skip;
      exact ⟨[Event.installHandlers, Event.spawnTests (TEST_CMD c)],
        Event.killByPid Sig.sigkill ::
          (if w.serverExitsInGrace then [] else [Event.sleepMs 200]), 0,
        by rw [cleanup_fst_server]; simp⟩;
      exact ⟨[Event.installHandlers, Event.spawnTests (TEST_CMD c)],
        Event.killByPid Sig.sigkill ::
          (if w.serverExitsInGrace then [] else [Event.sleepMs 200]), 1,
        by rw [cleanup_fst_server]; simp⟩] <;>
    exact ⟨[Event.installHandlers],
      Event.killByPid Sig.sigkill ::
        (if w.serverExitsInGrace then [] else [Event.sleepMs 200]), 1,
      by rw [cleanup_fst_server]; simp⟩

/-- If the readiness wait fails, every branch of `afterSpawn` ends in
`cleanup(1)`, hence in `Deno.exit(1)`. -/
theorem afterSpawn_notReady (w : World) (c : Config)
    (hw : w.serverReady = false) :
    ∃ l, afterSpawn w c = l ++ [Event.exitP 1] := by
  unfold afterSpawn
  obtain ⟨l, hl⟩ := cleanup_ends_exit w ⟨false, true⟩ 1
  by_cases h1 : w.sigDuringWait = true
  · rw [if_pos h1, hl]
    exact ⟨Event.installHandlers :: l, by simp⟩
  · rw [if_neg h1, hw]
    simp only [Bool.not_false, if_true]
    rw [hl]
    exact ⟨Event.installHandlers :: l, by simp⟩

/-- A trace that contains a `spawnServer` event is a prefix followed by
that spawn and the whole `afterSpawn` continuation. -/
theorem trace_with_server (w : World) (c : Config) (cmd : List (List Char))
    (h : Event.spawnServer cmd ∈ mainTrace w c) :
    ∃ pre x, mainTrace w c = pre ++ Event.spawnServer x :: afterSpawn w c := by
  unfold mainTrace afterBuild at h ⊢
  by_cases hd : directMode c = true
  · rw [if_pos hd] at h ⊢
    rcases hB : BUILD_CMD c with _ | b <;> rw [hB] at h <;> dsimp only at h ⊢
    · rcases hS : SERVE_CMD c with _ | s <;> rw [hS] at h <;> dsimp only at h ⊢
      · rw [cleanup_fst_noServer] at h
        simp at h
      · by_cases hf : spawnFails w s = true
        · rw [if_pos hf, cleanup_fst_noServer] at h
          simp at h
        · rw [if_neg hf]
          exact ⟨[], s, rfl⟩
    · by_cases hf : spawnFails w b = true
      · rw [if_pos hf, cleanup_fst_noServer] at h
        simp at h
      · rw [if_neg hf] at h ⊢
        by_cases hbs : w.buildSucceeds = true
        · rw [if_pos hbs] at h ⊢
          rcases hS : SERVE_CMD c with _ | s <;> rw [hS] at h <;> dsimp only at h ⊢
          · rw [cleanup_fst_noServer] at h
            simp at h
          · by_cases hf2 : spawnFails w s = true
            · rw [if_pos hf2, cleanup_fst_noServer] at h
              simp at h
            · rw [if_neg hf2]
              exact ⟨[Event.spawnBuild b], s, rfl⟩
        · rw [if_neg hbs, cleanup_fst_noServer] at h
          simp at h
  · rw [if_neg hd] at h ⊢
    by_cases hf : spawnFails w (TASK_CMD c) = true
    · rw [if_pos hf, cleanup_fst_noServer] at h
      simp at h
    · rw [if_neg hf]
      exact ⟨[], TASK_CMD c, rfl⟩

/-! ## C2: the server is terminated on every exit path -/

/-- C2: on every run in which a server child was spawned (any mode, any
combination of build result, readiness, test result, grace-period race and
operator signals), a SIGTERM is sent to the server handle and only
afterwards does the supervisor call `Deno.exit` — the trace decomposes as
`prefix ++ [SIGTERM on the handle] ++ rest ++ [exit]`. -/
theorem sigterm_sent_before_exit (w : World) (c : Config)
    (cmd : List (List Char)) (h : Event.spawnServer cmd ∈ mainTrace w c) :
    ∃ l1 l2 code, mainTrace w c =
      l1 ++ Event.killServerHandle Sig.sigterm :: l2 ++ [Event.exitP code] := by
  obtain ⟨pre, x, hpre⟩ := trace_with_server w c cmd h
  obtain ⟨l1, l2, code, hA⟩ := afterSpawn_decomp w c
  refine ⟨pre ++ Event.spawnServer x :: l1, l2, code, ?_⟩
  rw [hpre, hA]
  simp

/-- Witness for `sigterm_sent_before_exit`: the default configuration with
every external step succeeding. -/
theorem sigterm_sent_before_exit_witness :
    ∃ l1 l2 code, mainTrace wAll cfgAllUnset =
      l1 ++ Event.killServerHandle Sig.sigterm :: l2 ++ [Event.exitP code] :=
  sigterm_sent_before_exit wAll cfgAllUnset
    (parseCmd "deno serve -A _fresh/server.js".data) (by decide)

/-! ## Readiness-prober lemmas -/

/-- If no probe ever succeeds, the probing loop terminates with the
timeout error from any loop state. -/
theorem wfsGo_never_ready (ready : Nat → Bool) (t : ℚ)
    (hr : ∀ n, ready n = false) (a : Nat) (e : ℚ) :
    (wfsGo ready t a e).1 = WfsResult.timeout := by
  induction a, e using wfsGo.induct ready t with
  | case1 a e he hready => rw [hr a] at hready; simp at hready
  | case2 a e he hready d ih =>
    rw [wfsGo.eq_def, dif_pos he, if_neg (by rw [hr a]; simp)]
    dsimp only
    exact ih
  | case3 a e he => rw [wfsGo.eq_def, dif_neg he]

/-- The sleeps of a probing trace from counter value `a` are
`waitDelay a, waitDelay (a+1), ...`, and the progress lines are logged at
exactly the multiples of 5 among the incremented counter values. -/
theorem wfsGo_sleeps_progress (ready : Nat → Bool) (t : ℚ) (a : Nat) (e : ℚ) :
    ∃ k, sleepsOf (wfsGo ready t a e).2 = (List.range' a k).map waitDelay ∧
      progressOf (wfsGo ready t a e).2 =
        (List.range' (a + 1) k).filter (fun n => n % 5 == 0) := by
  induction a, e using wfsGo.induct ready t with
  | case1 a e he hready =>
    refine ⟨0, ?_, ?_⟩ <;> rw [wfsGo.eq_def, dif_pos he, if_pos hready] <;> rfl
  | case2 a e he hready d ih =>
    obtain ⟨k, h1, h2⟩ := ih
    refine ⟨k + 1, ?_, ?_⟩ <;>
      rw [wfsGo.eq_def, dif_pos he, if_neg hready] <;>
      dsimp only <;>
      rw [List.range'_succ]
    · rw [List.map_cons, ← h1]
      unfold sleepsOf
      rw [List.filterMap_append, List.filterMap_cons]
      dsimp only
      by_cases h5 : (a + 1) % 5 = 0 <;> simp [h5]
    · rw [List.filter_cons, ← h2]
      unfold progressOf
      rw [List.filterMap_append, List.filterMap_cons]
      dsimp only
      by_cases h5 : (a + 1) % 5 = 0 <;> simp [h5]
  | case3 a e he =>
    refine ⟨0, ?_, ?_⟩ <;> rw [wfsGo.eq_def, dif_neg he] <;> rfl

/-- A progress event for count `n` is in a trace iff `n` is collected by
`progressOf`. -/
theorem mem_progressOf (n : Nat) (tr : List WEvent) :
    WEvent.progress n ∈ tr ↔ n ∈ progressOf tr := by
  unfold progressOf
  rw [List.mem_filterMap]
  constructor
  · intro h
    exact ⟨WEvent.progress n, h, rfl⟩
  · rintro ⟨e, he, hf⟩
    cases e with
    | sleep d => simp at hf
    | progress m =>
      simp only [Option.some.injEq] at hf
      exact hf ▸ he

/-! ## C7: the probe never blocks forever -/

/-- C7: if no readiness probe ever succeeds, `waitForServer` terminates
with the timeout failure — it never blocks forever (the loop provably
terminates because every sleep lasts at least 200ms) — and in any run
whose server was spawned but never became ready, the failure funnels into
`cleanup` with the non-zero outcome: the trace ends with `Deno.exit(1)`. -/
theorem readiness_timeout_unblocks_and_cleans (ready : Nat → Bool) (t : ℚ)
    (hr : ∀ n, ready n = false) (w : World) (c : Config)
    (hw : w.serverReady = false) (cmd : List (List Char))
    (hs : Event.spawnServer cmd ∈ mainTrace w c) :
    (waitForServer ready t).1 = WfsResult.timeout ∧
    (mainTrace w c).getLast? = some (Event.exitP 1) := by
  refine ⟨wfsGo_never_ready ready t hr 0 0, ?_⟩
  obtain ⟨pre, x, hpre⟩ := trace_with_server w c cmd hs
  obtain ⟨l, hl⟩ := afterSpawn_notReady w c hw
  rw [hpre, hl]
  have : pre ++ Event.spawnServer x :: (l ++ [Event.exitP 1]) =
      (pre ++ Event.spawnServer x :: l) ++ [Event.exitP 1] := by simp
  rw [this, List.getLast?_concat]

/-- Witness for `readiness_timeout_unblocks_and_cleans`: the default
configuration with a never-ready server. -/
theorem readiness_timeout_unblocks_and_cleans_witness :
    (waitForServer (fun _ => false) 100).1 = WfsResult.timeout ∧
    (mainTrace wNoReady cfgAllUnset).getLast? = some (Event.exitP 1) :=
  readiness_timeout_unblocks_and_cleans (fun _ => false) 100 (fun _ => rfl)
    wNoReady cfgAllUnset rfl
    (parseCmd "deno serve -A _fresh/server.js".data) (by decide)

/-! ## C8: backoff intervals and progress cadence -/

/-- C8: in every run of `waitForServer`, the n-th sleep interval
(0-indexed: the sleep after the (n+1)-th failed probe) is exactly
`min(200 · 1.25^n, 2000)` milliseconds, and a progress line is logged for
attempt count `n` exactly when `n` is a positive multiple of 5 reached by
the run. -/
theorem backoff_intervals_and_progress (ready : Nat → Bool) (t : ℚ) :
    (∀ n, n < (sleepsOf (waitForServer ready t).2).length →
      (sleepsOf (waitForServer ready t).2).get? n =
        some (min (200 * (5 / 4 : ℚ) ^ n) 2000)) ∧
    (∀ n, WEvent.progress n ∈ (waitForServer ready t).2 ↔
      (n % 5 = 0 ∧ 1 ≤ n ∧ n ≤ (sleepsOf (waitForServer ready t).2).length)) := by
  obtain ⟨k, h1, h2⟩ := wfsGo_sleeps_progress ready t 0 0
  simp only [waitForServer]
  have hlen : (sleepsOf (wfsGo ready t 0 0).2).length = k := by
    rw [h1, List.length_map, List.length_range']
  constructor
  · intro n hn
    rw [hlen] at hn
    rw [h1, List.get?_map, List.get?_range' 0 1 hn]
    simp [waitDelay]
  · intro n
    rw [mem_progressOf, h2, hlen, List.mem_filter, List.mem_range'_1]
    constructor
    · rintro ⟨⟨hge, hlt⟩, hmod⟩
      simp only [beq_iff_eq] at hmod
      exact ⟨hmod, hge, by omega⟩
    · rintro ⟨hmod, hge, hle⟩
      exact ⟨⟨hge, by omega⟩, by simpa using hmod⟩

/-- Concrete evaluation of a short probing run: with a 100ms timeout and a
never-ready server there is exactly one failed probe, sleeping 200ms. -/
theorem wfsGo_eval_short :
    wfsGo (fun _ => false) 100 0 0 = (WfsResult.timeout, [WEvent.sleep 200]) := by
  rw [wfsGo.eq_def]
  norm_num [waitDelay]
  rw [wfsGo.eq_def]
  norm_num

/-- Witness for `backoff_intervals_and_progress`: the first sleep of the
short run is `min(200 · 1.25^0, 2000) = 200` ms. -/
theorem backoff_intervals_and_progress_witness :
    0 < (sleepsOf (waitForServer (fun _ => false) 100).2).length ∧
    (sleepsOf (waitForServer (fun _ => false) 100).2).get? 0 =
      some (min (200 * (5 / 4 : ℚ) ^ 0) 2000) := by
  have h0 : 0 < (sleepsOf (waitForServer (fun _ => false) 100).2).length := by
    rw [waitForServer, wfsGo_eval_short]
    simp [sleepsOf]
  exact ⟨h0, (backoff_intervals_and_progress (fun _ => false) 100).1 0 h0⟩

end TestRunner
